import Mathlib

/-!
Shallow embedding of the EnsEquil core (gradient processing, stage control
loops, simulation submission, calculation setup) and proofs about it.

Modelling conventions:
* Python floats / `Decimal`s are modelled as exact rationals (`ℚ`).
* `numpy.sqrt` is not rational-valued, so every definition that the source
  feeds through `np.sqrt` takes an explicit square-root model `sq : ℚ → ℚ`
  as a parameter; theorems either hold for every such `sq`, or constrain it
  by the hypotheses they need, and concrete instances only apply `sq` at
  perfect squares, where the model agrees with the exact square root.
* Python lists / numpy arrays are `List ℚ`; reading `a[i]` is `List.getD`
  (the source only indexes in range, so the default is never exercised in
  the theorems, which carry the length hypotheses of their claims).
* Fallible code returns `Except String α`, the string being the message of
  the exception raised in the source.
-/

namespace EnsEquil

/-- Decidable equality for `Except`, so that results of the fallible
embedded operations can be checked on concrete inputs. -/
instance {ε α : Type} [DecidableEq ε] [DecidableEq α] : DecidableEq (Except ε α) := fun
  | .error e₁, .error e₂ =>
    if h : e₁ = e₂ then .isTrue (by rw [h])
    else .isFalse (fun hh => h (by injection hh))
  | .error _, .ok _ => .isFalse (fun hh => by injection hh)
  | .ok _, .error _ => .isFalse (fun hh => by injection hh)
  | .ok a₁, .ok a₂ =>
    if h : a₁ = a₂ then .isTrue (by rw [h])
    else .isFalse (fun hh => h (by injection hh))

/-- Python `int(q)` on a float/Decimal: truncation toward zero. -/
def pyInt (q : ℚ) : ℤ := if q < 0 then -⌊-q⌋ else ⌊q⌋

/-- Rounding half-to-even at integer precision, as used by both Python's
`round` and `numpy.round`. -/
def roundHalfEven (q : ℚ) : ℤ :=
  if q - ⌊q⌋ < 1/2 then ⌊q⌋
  else if 1/2 < q - ⌊q⌋ then ⌊q⌋ + 1
  else if ⌊q⌋ % 2 = 0 then ⌊q⌋ else ⌊q⌋ + 1

/-- Python `round(q, nd)` / `numpy.round(q, nd)`: scale, round half-to-even,
unscale (exact over `ℚ`). -/
def pyRound (q : ℚ) (nd : ℕ) : ℚ := (roundHalfEven (q * 10 ^ nd) : ℚ) / 10 ^ nd

/-- `numpy.round(q, 3)` as used on the optimal lambda values. -/
def npRound3 (q : ℚ) : ℚ := pyRound q 3

/-- `numpy.linspace a b k` (with endpoint): `k` equally spaced points from
`a` to `b`. -/
def linspace (a b : ℚ) (k : ℕ) : List ℚ :=
  if k = 0 then []
  else if k = 1 then [a]
  else (List.range k).map (fun i : ℕ => a + (b - a) * (i : ℚ) / ((k : ℚ) - 1))

/-- `numpy.trapz ys xs`: trapezoidal integral of the points `(xs i, ys i)`;
zero on fewer than two points. -/
def trapz : List ℚ → List ℚ → ℚ
  | y0 :: y1 :: ys, x0 :: x1 :: xs => (x1 - x0) * (y0 + y1) / 2 + trapz (y1 :: ys) (x1 :: xs)
  | _, _ => 0

/-- `numpy.interp x xp fp` for a non-decreasing `xp` (numpy's documented
precondition, satisfied by every call site in the source: `xp` is a running
trapezoidal integral of non-negative values). `imin` is the first index whose
abscissa exceeds `x`, exactly the index numpy's binary search produces. -/
def interp (x : ℚ) (xp fp : List ℚ) : ℚ :=
  let imin := (xp.takeWhile (fun v => v ≤ x)).length
  if imin = 0 then fp.headD 0
  else if imin = xp.length then fp.getLastD 0
  else
    let j := imin - 1
    fp.getD j 0 +
      (fp.getD (j + 1) 0 - fp.getD j 0) * (x - xp.getD j 0) /
        (xp.getD (j + 1) 0 - xp.getD j 0)

/-- The derived, per-window fields that `GradientData.__init__` stores on
`self` and that the later methods consume (`analyse/process_grads.py`).
All lists are indexed by window, in the stage's window order. -/
structure GradientData where
  lamVals : List ℚ        -- self.lam_vals
  semsInter : List ℚ      -- self.sems_inter
  semsIntra : List ℚ      -- self.sems_intra
  semsOverall : List ℚ    -- self.sems_overall (the "total SEM" diagnostic)
  varsIntra : List ℚ      -- self.vars_intra
  samplingTimes : List ℚ  -- self.sampling_times
deriving DecidableEq

/-- `GradientData.get_sems(origin, smoothen)` (process_grads.py lines
117-167): reject an unknown origin, standardise the chosen SEM series by
`sqrt(sampling_times)`, and optionally apply the source's 3-point smoothing,
whose neighbour terms are read from `self.sems_overall`, not from the
standardised series. -/
def getSems (sq : ℚ → ℚ) (gd : GradientData) (origin : String) (smoothen : Bool) :
    Except String (List ℚ) :=
  if origin ≠ "inter" ∧ origin ≠ "intra" then
    .error "origin must be either 'inter' or 'intra'"
  else
    let sems0 := if origin = "inter" then gd.semsInter else gd.semsIntra
    let sems := (List.zip sems0 gd.samplingTimes).map (fun p => p.1 * sq p.2)
    if !smoothen then .ok sems
    else
      let maxInd := sems.length - 1
      .ok ((List.range sems.length).map (fun i =>
        if i = 0 then (sems.getD i 0 + gd.semsOverall.getD (i + 1) 0) / 2
        else if i = maxInd then (sems.getD i 0 + gd.semsOverall.getD (i - 1) 0) / 2
        else (sems.getD i 0 + gd.semsOverall.getD (i + 1) 0 +
              gd.semsOverall.getD (i - 1) 0) / 3))

/-- `GradientData.get_integrated_error(er_type, origin, smoothen)`
(process_grads.py
lines 169-217): cumulative trapezoidal integral of the chosen error series
over lambda, one value per window prefix. -/
def getIntegratedError (sq : ℚ → ℚ) (gd : GradientData) (erType origin : String)
    (smoothen : Bool) : Except String (List ℚ) :=
  if erType ≠ "sem" ∧ erType ≠ "root_var" then
    .error "er_type must be either 'sem' or 'root_var'"
  else if origin ≠ "inter" ∧ origin ≠ "intra" then
    .error "origin must be either 'inter' or 'intra'"
  else do
    let yVals ←
      if erType = "sem" then getSems sq gd origin smoothen
      else .ok (gd.varsIntra.map sq)
    .ok ((List.range gd.lamVals.length).map (fun i =>
      trapz (yVals.take (i + 1)) (gd.lamVals.take (i + 1))))

/-- `GradientData.calculate_optimal_lam_vals` (process_grads.py lines
219-287): exactly one of `delta_er`/`n_lam_vals` must be supplied; when
`delta_er` is, `n_lam_vals = int(total_error / delta_er) + 1`; then invert
the integrated error curve at `n_lam_vals` equally spaced target values and
round to 3 decimal places. -/
def calculateOptimalLamVals (sq : ℚ → ℚ) (gd : GradientData) (erType : String)
    (deltaEr : Option ℚ) (nLamVals : Option ℕ) (semOrigin : String)
    (smoothenSems : Bool) : Except String (List ℚ) :=
  if deltaEr = none ∧ nLamVals = none then
    .error "Either delta_er or n_lam_vals must be provided."
  else if deltaEr ≠ none ∧ nLamVals ≠ none then
    .error "Only one of delta_er or n_lam_vals can be provided."
  else do
    let integratedErrors ← getIntegratedError sq gd erType semOrigin smoothenSems
    let totalError := integratedErrors.getLastD 0
    let n : ℕ :=
      match nLamVals with
      | some n => n
      | none => (pyInt (totalError / deltaEr.getD 1) + 1).toNat
    let requested := linspace 0 totalError n
    .ok (requested.map (fun r => npRound3 (interp r integratedErrors gd.lamVals)))

/-- `scipy.constants.gas_constant` (the source decimal literal, exact). -/
def gasConstant : ℚ := 831446261815324 / 100000000000000

/-- `beta = (4.184 * 1000) / (R * temperature)` from
`get_predicted_overlap_mat` (`4.184 * 1000` is exactly `4184` in double
precision). -/
def overlapBeta (temperature : ℚ) : ℚ := 4184 / (gasConstant * temperature)

/-- One multiplicative step of the overlap walk in
`get_predicted_overlap_mat`: `beta * delta_lam * sqrt(av_var)` for the
interval ending at window `t`. -/
def overlapStep (sq : ℚ → ℚ) (lamVals varsIntra : List ℚ) (b : ℚ) (t : ℕ) : ℚ :=
  b * (lamVals.getD t 0 - lamVals.getD (t - 1) 0) *
    sq ((varsIntra.getD t 0 + varsIntra.getD (t - 1) 0) / 2)

/-- Upper-triangle entry `predicted_overlap_mat[base, base + j]` before
mirroring: the source's running `unnormalised_overlap` accumulator after `j`
divisions, i.e. the product of the reciprocals of the first `j` steps out of
`base`. -/
def unnormUpper (sq : ℚ → ℚ) (lamVals varsIntra : List ℚ) (b : ℚ) (base j : ℕ) : ℚ :=
  ((List.range j).map (fun s => (overlapStep sq lamVals varsIntra b (base + s + 1))⁻¹)).prod

/-- The mirrored (pre-normalisation) matrix
`predicted_overlap_mat + predicted_overlap_mat.T - diag(...)`: the upper
triangle is `unnormUpper`, the strict lower triangle its transpose. -/
def unnormOverlapMat (sq : ℚ → ℚ) (gd : GradientData) (temperature : ℚ) (i j : ℕ) : ℚ :=
  let b := overlapBeta temperature
  if i ≤ j then unnormUpper sq gd.lamVals gd.varsIntra b i (j - i)
  else unnormUpper sq gd.lamVals gd.varsIntra b j (i - j)

/-- Row sum of the mirrored matrix over the `n_lam` columns. -/
def overlapRowSum (sq : ℚ → ℚ) (gd : GradientData) (temperature : ℚ) (i : ℕ) : ℚ :=
  ((List.range gd.lamVals.length).map (unnormOverlapMat sq gd temperature i)).sum

/-- `GradientData.get_predicted_overlap_mat(temperature)` (process_grads.py
lines 289-326): entry `(i, j)` of the final matrix, the mirrored matrix
row-normalised in place (each row is divided by its own sum; normalising one
row never touches another, so the in-place loop equals this). -/
def predictedOverlapMat (sq : ℚ → ℚ) (gd : GradientData) (temperature : ℚ) (i j : ℕ) : ℚ :=
  unnormOverlapMat sq gd temperature i j / overlapRowSum sq gd temperature i

/-- Modelled from the spec: the 3-point unweighted block average that claim
C7 describes — every window averaged with its neighbours *from the same
series* (edge windows with their single neighbour). Compared against
`getSems` to settle the refinement. -/
def specBlockAverage3 (xs : List ℚ) : List ℚ :=
  (List.range xs.length).map (fun i =>
    if i = 0 then (xs.getD 0 0 + xs.getD 1 0) / 2
    else if i = xs.length - 1 then (xs.getD i 0 + xs.getD (i - 1) 0) / 2
    else (xs.getD (i - 1) 0 + xs.getD i 0 + xs.getD (i + 1) 0) / 3)

/-- `Stage.lam_val_weights` (run/stage.py lines 165-178): trapezoidal-rule
weight of each lambda value. -/
def lamValWeights (lamVals : List ℚ) : List ℚ :=
  (List.range lamVals.length).map (fun i =>
    if i = 0 then (lamVals.getD (i + 1) 0 - lamVals.getD i 0) / 2
    else if i = lamVals.length - 1 then (lamVals.getD i 0 - lamVals.getD (i - 1) 0) / 2
    else (lamVals.getD (i + 1) 0 - lamVals.getD (i - 1) 0) / 2)

/-- The per-window state `Stage.analyse` inspects: the lazily cached
`_equilibrated` flag and the `equil_time` (ns, `None` until detected). -/
structure WindowState where
  equilibrated : Bool
  equilTime : Option ℚ
deriving DecidableEq

/-- The fields of a `Stage` that the `analyse` guards read. -/
structure StageState where
  running : Bool
  failedSimulations : List String  -- base dirs of failed simulations
  windows : List WindowState

/-- The per-window loop of the equilibration guard in `Stage.analyse`:
first window with `_equilibrated` false, or equilibrated but with no
equilibration time, raises. -/
def checkWindowsEquilibrated : List WindowState → Except String Unit
  | [] => .ok ()
  | w :: rest =>
    if !w.equilibrated then
      .error "Not all lambda windows have equilibrated. Analysis cannot be performed."
    else if w.equilTime = none then
      .error "Despite equilibration being detected, no equilibration time was found."
    else checkWindowsEquilibrated rest

/-- The guard prefix of `Stage.analyse` (run/stage.py lines 510-529): the
three checks that run, in order, before any truncation, MBAR call or file
write. Analysis proper happens only on `.ok`. -/
def stageAnalyseGuard (s : StageState) : Except String Unit :=
  if s.running then
    .error "Cannot perform analysis as the Stage is still running"
  else if s.failedSimulations ≠ [] then
    .error "Unable to perform analysis as several simulations did not complete successfully"
  else checkWindowsEquilibrated s.windows

/-- One pass of `Stage._run_loop_adaptive_efficiency` after the drain
(run/stage.py lines 391-424), for a stage whose windows currently hold
`winTimes` total simulated time (ns). Returns which windows were
resubmitted and whether `_maximally_efficient` was set. The pass starts by
calling `get_sems(origin="inter_delta_g", smoothen=True)` on a fresh
non-equilibrated `GradientData`. -/
def adaptiveEfficiencyPass (sq : ℚ → ℚ) (gd : GradientData) (runtimeConstant : ℚ)
    (winTimes : List ℚ) (ensembleSize : ℕ) (maximumRuntime : ℚ) :
    Except String (List Bool × Bool) := do
  let smoothDgSems ← getSems sq gd "inter_delta_g" true
  let resubmitted := (List.range winTimes.length).map (fun i =>
    let normalisedSemDg := smoothDgSems.getD i 0
    let predicted0 := (sq runtimeConstant)⁻¹ * normalisedSemDg
    let predicted :=
      if predicted0 > maximumRuntime * ensembleSize then maximumRuntime * ensembleSize
      else predicted0
    let actual := winTimes.getD i 0
    if actual < predicted - 1/10 then
      decide (pyRound ((predicted - actual) / ensembleSize) 1 > 0)
    else false)
  .ok (resubmitted, resubmitted.all (· = false))

/-- `Decimal.__mod__`: remainder of truncated division (sign of the
dividend), exact over `ℚ` since `Decimal(str(x))` is exact decimal
arithmetic. -/
def decimalMod (a b : ℚ) : ℚ := a - b * (pyInt (a / b) : ℚ)

/-- The fields of a `Simulation` that `run` reads and writes. The value of
the `ncycles` key in `somd.cfg` is modelled directly (`_set_n_cycles`
rewrites exactly that key). -/
structure SimState where
  timePerCycle : ℚ    -- timestep * nmoves / 1e6, immutable after init
  configNCycles : ℤ   -- "ncycles = ..." in the external somd.cfg
  submittedJobs : ℕ   -- number of virtual_queue.submit calls so far
  running : Bool
  totSimtime : ℚ      -- ns
deriving DecidableEq

/-- `Simulation.run(duration)` (simulation.py lines 154-182): reject a
duration whose remainder modulo the per-cycle time does not round to zero at
4 decimal places (raised before `_set_n_cycles` and before
`virtual_queue.submit`); otherwise rewrite `ncycles`, submit, set the
running flag and accumulate `tot_simtime`. -/
def simulationRun (s : SimState) (duration : ℚ) : Except String SimState :=
  let remainder := decimalMod duration s.timePerCycle
  if pyRound remainder 4 ≠ 0 then
    .error "Duration must be a multiple of the time per cycle."
  else
    .ok { s with
          configNCycles := pyInt (duration / s.timePerCycle),
          submittedJobs := s.submittedJobs + 1,
          running := true,
          totSimtime := s.totSimtime + duration }

/-- The two legs of a calculation (`run/enums.py` tags, as used by
`Calculation.required_legs = [FREE, BOUND]`). -/
inductive LegType where
  | free : LegType
  | bound : LegType
deriving DecidableEq, Repr

/-- The fields of a `Calculation` that `setup` reads and writes. Per-leg
setup work (`Leg.setup`, not under src/) is out of scope; only which legs
are created, in which order, is modelled. -/
structure CalcState where
  setupComplete : Bool
  legs : List LegType
deriving DecidableEq, Repr

/-- `Calculation.setup` (run/calculation.py lines 123-178): if
`setup_complete` is already true, log "Setup already complete. Skipping..."
and return normally; otherwise build the legs in `reversed(required_legs)`
order and set `setup_complete`. -/
def calculationSetup (s : CalcState) : Except String CalcState :=
  if s.setupComplete then .ok s
  else .ok { setupComplete := true, legs := [LegType.bound, LegType.free] }

/-- `Stage._write_equilibrated_data` (run/stage.py lines 650-690): count the
leading `#` lines, copy them, then copy `lines[equil_index + non_data_lines:]`.
`equilIndex` is an `ℤ` because `analyse` computes it as `int(...) - 1`; the
slice start `equilIndex + non_data_lines` is clamped at 0 like a Python
slice (the source never reaches a negative composite index in the regime
the theorems describe). -/
def writeEquilibratedData (lines : List String) (equilIndex : ℤ) : List String :=
  let nonDataLines := (lines.takeWhile (fun l => l.startsWith "#")).length
  lines.take nonDataLines ++ lines.drop (equilIndex + nonDataLines).toNat

/-- The equilibration index used by `Stage.analyse` (run/stage.py line 538):
`int(equil_time / (timestep * nrg_freq)) - 1`. -/
def equilIndexOf (equilTime timestep nrgFreq : ℚ) : ℤ :=
  pyInt (equilTime / (timestep * nrgFreq)) - 1

/-! ### General helper lemmas -/

theorem getLastD_eq_getD : ∀ (l : List ℚ) (d : ℚ), l.getLastD d = l.getD (l.length - 1) d
  | [], _ => rfl
  | [_], _ => rfl
  | a :: b :: t, d => by
    have h1 : (a :: b :: t).getLastD d = (b :: t).getLastD a := by simp [List.getLastD]
    have hlen : t.length < (b :: t).length := by simp
    rw [h1, getLastD_eq_getD (b :: t) a]
    show (b :: t).getD ((b :: t).length - 1) a = (a :: b :: t).getD ((a :: b :: t).length - 1) d
    have h2 : (b :: t).length - 1 = t.length := by simp
    have h3 : (a :: b :: t).length - 1 = t.length + 1 := by simp
    rw [h2, h3, List.getD_cons_succ, List.getD_eq_getElem _ _ hlen, List.getD_eq_getElem _ _ hlen]

theorem headD_eq_getD (l : List ℚ) (d : ℚ) : l.headD d = l.getD 0 d := by
  cases l <;> rfl

theorem range_map_sum (f : ℕ → ℚ) : ∀ n : ℕ, ((List.range n).map f).sum = ∑ i ∈ Finset.range n, f i
  | 0 => rfl
  | n + 1 => by
    rw [List.range_succ, List.map_append, List.sum_append, Finset.sum_range_succ,
      range_map_sum f n]
    simp

theorem range_map_getD (f : ℕ → ℚ) {n i : ℕ} (h : i < n) :
    ((List.range n).map f).getD i 0 = f i := by
  have hlen : i < ((List.range n).map f).length := by simpa using h
  rw [List.getD_eq_getElem _ _ hlen]
  simp

theorem map_div_sum (g : ℕ → ℚ) (c : ℚ) :
    ∀ l : List ℕ, (l.map (fun j => g j / c)).sum = (l.map g).sum / c
  | [] => by simp
  | a :: t => by
    simp only [List.map_cons, List.sum_cons, map_div_sum g c t]
    ring

theorem pyInt_of_nonneg {q : ℚ} (h : 0 ≤ q) : pyInt q = ⌊q⌋ := by
  simp [pyInt, not_lt.mpr h]

theorem roundHalfEven_floor_le (q : ℚ) : ⌊q⌋ ≤ roundHalfEven q := by
  unfold roundHalfEven
  split_ifs <;> omega

theorem roundHalfEven_le_floor_add_one (q : ℚ) : roundHalfEven q ≤ ⌊q⌋ + 1 := by
  unfold roundHalfEven
  split_ifs <;> omega

theorem roundHalfEven_mono {x y : ℚ} (h : x ≤ y) : roundHalfEven x ≤ roundHalfEven y := by
  have hf : ⌊x⌋ ≤ ⌊y⌋ := Int.floor_mono h
  rcases eq_or_lt_of_le hf with heq | hlt
  · unfold roundHalfEven
    rw [← heq]
    have hxy : x - ⌊x⌋ ≤ y - ⌊x⌋ := by linarith
    split_ifs <;> first | omega | linarith
  · calc roundHalfEven x ≤ ⌊x⌋ + 1 := roundHalfEven_le_floor_add_one x
      _ ≤ ⌊y⌋ := by omega
      _ ≤ roundHalfEven y := roundHalfEven_floor_le y

theorem npRound3_mono {x y : ℚ} (h : x ≤ y) : npRound3 x ≤ npRound3 y := by
  unfold npRound3 pyRound
  have h1 : x * 10 ^ 3 ≤ y * 10 ^ 3 := by nlinarith
  have h2 := roundHalfEven_mono h1
  have h3 : (roundHalfEven (x * 10 ^ 3) : ℚ) ≤ (roundHalfEven (y * 10 ^ 3) : ℚ) := by
    exact_mod_cast h2
  have hp : (0:ℚ) ≤ 10 ^ 3 := by norm_num
  exact div_le_div_of_nonneg_right h3 hp

theorem two_step_telescope (f : ℕ → ℚ) :
    ∀ m : ℕ, ∑ i ∈ Finset.range m, (f (i + 2) - f i) = f (m + 1) + f m - f 1 - f 0
  | 0 => by simp
  | m + 1 => by rw [Finset.sum_range_succ, two_step_telescope f m]; ring

theorem takeWhile_append_of_all (p : String → Bool) :
    ∀ h : List String, ∀ t : List String, (∀ l ∈ h, p l = true) →
      (∀ l, t.head? = some l → p l = false) → (h ++ t).takeWhile p = h
  | [], t, _, ht => by
    cases t with
    | nil => rfl
    | cons d t' =>
      have := ht d rfl
      simp [List.takeWhile_cons, this]
  | a :: h', t, hh, ht => by
    have ha : p a = true := hh a (List.mem_cons_self a h')
    simp only [List.cons_append, List.takeWhile_cons, ha, if_true]
    rw [takeWhile_append_of_all p h' t (fun l hl => hh l (List.mem_cons_of_mem a hl)) ht]

theorem chain'_le_getD_mono {l : List ℚ} (hl : l.Chain' (· ≤ ·)) {i j : ℕ}
    (hij : i ≤ j) (hj : j < l.length) : l.getD i 0 ≤ l.getD j 0 := by
  rcases eq_or_lt_of_le hij with rfl | hlt
  · exact le_refl _
  · have hp := List.chain'_iff_pairwise.mp hl
    have hi : i < l.length := lt_trans hlt hj
    rw [List.getD_eq_getElem _ _ hi, List.getD_eq_getElem _ _ hj]
    exact List.pairwise_iff_get.mp hp ⟨i, hi⟩ ⟨j, hj⟩ hlt

theorem chain'_lt_getD_strict {l : List ℚ} (hl : l.Chain' (· < ·)) {i j : ℕ}
    (hij : i < j) (hj : j < l.length) : l.getD i 0 < l.getD j 0 := by
  have hp := List.chain'_iff_pairwise.mp hl
  have hi : i < l.length := lt_trans hij hj
  rw [List.getD_eq_getElem _ _ hi, List.getD_eq_getElem _ _ hj]
  exact List.pairwise_iff_get.mp hp ⟨i, hi⟩ ⟨j, hj⟩ hij

/-- If some window's cached equilibration flag is false, the per-window
guard loop of `Stage.analyse` errors. -/
theorem checkWindows_error_of_unequilibrated :
    ∀ ws : List WindowState, (∃ w ∈ ws, w.equilibrated = false) →
      ∃ msg, checkWindowsEquilibrated ws = .error msg := by
  intro ws
  induction ws with
  | nil => rintro ⟨w, hw, _⟩; exact absurd hw (List.not_mem_nil w)
  | cons w rest ih =>
    rintro ⟨w', hw', heq⟩
    by_cases hwe : w.equilibrated
    · rcases List.mem_cons.mp hw' with rfl | hmem
      · exact absurd hwe (by simp [heq])
      · by_cases ht : w.equilTime = none
        · exact ⟨"Despite equilibration being detected, no equilibration time was found.",
            by simp [checkWindowsEquilibrated, hwe, ht]⟩
        · obtain ⟨msg, hmsg⟩ := ih ⟨w', hmem, heq⟩
          exact ⟨msg, by simp [checkWindowsEquilibrated, hwe, ht, hmsg]⟩
    · exact ⟨"Not all lambda windows have equilibrated. Analysis cannot be performed.",
        by simp [checkWindowsEquilibrated, hwe]⟩

/-- C3: `Stage.analyse()` raises (and performs no analysis) whenever the
Stage is still running, or some simulation failed, or some window's
equilibrated flag is false; each condition alone suffices. -/
theorem stage_analyse_guard_errors (s : StageState)
    (h : s.running = true ∨ s.failedSimulations ≠ [] ∨ ∃ w ∈ s.windows, w.equilibrated = false) :
    ∃ msg, stageAnalyseGuard s = .error msg := by
  by_cases hr : s.running
  · exact ⟨"Cannot perform analysis as the Stage is still running",
      by simp [stageAnalyseGuard, hr]⟩
  · by_cases hf : s.failedSimulations = []
    · have hw : ∃ w ∈ s.windows, w.equilibrated = false := by
        rcases h with h | h | h
        · exact absurd h hr
        · exact absurd hf h
        · exact h
      obtain ⟨msg, hmsg⟩ := checkWindows_error_of_unequilibrated s.windows hw
      exact ⟨msg, by simp [stageAnalyseGuard, hr, hf, hmsg]⟩
    · exact ⟨"Unable to perform analysis as several simulations did not complete successfully",
        by simp [stageAnalyseGuard, hr, hf]⟩

/-- Witness for C3: a stage that is still running (with no failed
simulations and no windows) already fails the guard. -/
theorem stage_analyse_guard_errors_witness :
    (StageState.mk true [] []).running = true ∧
      ∃ msg, stageAnalyseGuard (StageState.mk true [] []) = .error msg :=
  ⟨rfl, stage_analyse_guard_errors ⟨true, [], []⟩ (Or.inl rfl)⟩

/-- C1: every pass of the adaptive-efficiency loop aborts with the
`get_sems` origin ValueError — `stage.py` requests
`origin="inter_delta_g"`, which `process_grads.get_sems` rejects — so no
smoothed SEM is ever extracted, no window is ever resubmitted by this loop,
and the maximally-efficient flag is never set by it. -/
theorem adaptive_efficiency_pass_always_errors (sq : ℚ → ℚ) (gd : GradientData)
    (runtimeConstant : ℚ) (winTimes : List ℚ) (ensembleSize : ℕ) (maximumRuntime : ℚ) :
    adaptiveEfficiencyPass sq gd runtimeConstant winTimes ensembleSize maximumRuntime =
      .error "origin must be either 'inter' or 'intra'" := rfl

/-- C7 (failing input): on a two-window `GradientData` with standardised
inter-run SEM series `[1, 1]` but overall (total) SEM series `[5, 5]`, the
smoothed result is `[3, 3]`: the neighbour terms come from
`self.sems_overall`, not from the standardised series, whose own 3-point
block average would be `[1, 1]`. (`sq = id` is exact here: it is only
applied to the sampling times, which are `1`.) -/
theorem get_sems_smoothing_mixes_series :
    getSems id ⟨[0, 1], [1, 1], [], [5, 5], [], [1, 1]⟩ "inter" true = .ok [3, 3] ∧
      ((List.zip [1, 1] [1, 1]).map (fun p : ℚ × ℚ => p.1 * id p.2)) = [1, 1] ∧
      specBlockAverage3 [1, 1] = [1, 1] ∧
      (3 : ℚ) ≠ 1 := by
  refine ⟨by with_unfolding_all decide, by with_unfolding_all decide,
    by with_unfolding_all decide, by with_unfolding_all decide⟩

/-- C9 (counterexample): calling `setup` on a calculation whose setup is
complete returns normally with the state untouched — no lifecycle error is
raised. -/
theorem calculation_setup_second_call_no_error :
    calculationSetup ⟨true, []⟩ = .ok ⟨true, []⟩ ∧
      ∀ msg, calculationSetup ⟨true, []⟩ ≠ .error msg := by
  refine ⟨rfl, fun msg h => ?_⟩
  simp [calculationSetup] at h

/-- C9 (amended): a second `setup()` call on a completed calculation is a
silent no-op: it logs and returns, leaving the state unchanged and raising
nothing. -/
theorem calculation_setup_skips_when_complete (s : CalcState)
    (h : s.setupComplete = true) : calculationSetup s = .ok s := by
  simp [calculationSetup, h]

/-- Witness for the amended C9. -/
theorem calculation_setup_skips_when_complete_witness :
    calculationSetup ⟨true, [LegType.bound, LegType.free]⟩ =
      .ok ⟨true, [LegType.bound, LegType.free]⟩ :=
  calculation_setup_skips_when_complete ⟨true, [LegType.bound, LegType.free]⟩ rfl

/-- C2 (counterexample): `duration = 2.00004` ns is not an exact multiple of
a per-cycle time of `1` ns, yet `Simulation.run` does not fail: the
remainder `0.00004` rounds to `0` at 4 decimal places, so the config is
rewritten (`ncycles = 2`), the job submitted, and `tot_simtime` increased. -/
theorem simulation_run_tolerance_counterexample :
    (∀ k : ℤ, (50001 / 25000 : ℚ) ≠ (k : ℚ) * (1 : ℚ)) ∧
      simulationRun ⟨1, 5, 0, false, 0⟩ (50001 / 25000) =
        .ok ⟨1, 2, 1, true, 50001 / 25000⟩ := by
  constructor
  · intro k h
    rw [mul_one] at h
    have h' : (50001 : ℚ) = (k : ℚ) * 25000 := by
      field_simp at h
      linarith
    have h'' : (50001 : ℤ) = k * 25000 := by exact_mod_cast h'
    omega
  · have h1 : pyInt ((50001 : ℚ) / 25000 / 1) = 2 := by
      rw [div_one, pyInt_of_nonneg (by norm_num)]
      norm_num [Int.floor_eq_iff]
    have hmod : decimalMod ((50001 : ℚ) / 25000) 1 = 1 / 25000 := by
      unfold decimalMod
      rw [h1]
      norm_num
    have hru : pyRound ((1 : ℚ) / 25000) 4 = 0 := by
      unfold pyRound roundHalfEven
      rw [show ((1 : ℚ) / 25000) * 10 ^ 4 = 2 / 5 by norm_num]
      rw [show ⌊(2 / 5 : ℚ)⌋ = 0 from by norm_num [Int.floor_eq_iff]]
      norm_num
    simp only [simulationRun, hmod, hru]
    rw [if_neg (by norm_num)]
    rw [h1]
    norm_num

/-- C2 (amended): `Simulation.run(duration)` fails — before the external
config is rewritten and before any submission — iff the remainder of
`duration` modulo the per-cycle time, rounded to 4 decimal places, is
nonzero; otherwise it rewrites `ncycles`, submits exactly one job, sets the
running flag, and adds exactly `duration` to `tot_simtime`. -/
theorem simulation_run_alignment_check (s : SimState) (duration : ℚ) :
    (pyRound (decimalMod duration s.timePerCycle) 4 ≠ 0 →
      simulationRun s duration = .error "Duration must be a multiple of the time per cycle.") ∧
    (pyRound (decimalMod duration s.timePerCycle) 4 = 0 →
      simulationRun s duration =
        .ok ⟨s.timePerCycle, pyInt (duration / s.timePerCycle),
             s.submittedJobs + 1, true, s.totSimtime + duration⟩) := by
  constructor
  · intro h
    simp [simulationRun, h]
  · intro h
    simp [simulationRun, h]

/-- Witness for the amended C2: an exactly aligned duration (3 ns, 1 ns per
cycle) passes the check and produces exactly the claimed state. -/
theorem simulation_run_alignment_check_witness :
    pyRound (decimalMod 3 (1 : ℚ)) 4 = 0 ∧
      simulationRun ⟨1, 5, 0, false, 0⟩ 3 = .ok ⟨1, pyInt (3 / 1), 0 + 1, true, 0 + 3⟩ :=
  ⟨by with_unfolding_all decide,
    (simulation_run_alignment_check ⟨1, 5, 0, false, 0⟩ 3).2 (by with_unfolding_all decide)⟩

/-- C4: `calculate_optimal_lam_vals` fails when neither of `delta_er` /
`n_lam_vals` is given and when both are; when only `delta_er` is given, it
behaves exactly as if `n_lam_vals = floor(total_integrated_error / delta_er)
+ 1` had been given. -/
theorem calculate_optimal_lam_vals_arg_check (sq : ℚ → ℚ) (gd : GradientData)
    (deltaEr : ℚ) (errs : List ℚ)
    (herrs : getIntegratedError sq gd "sem" "inter" true = .ok errs)
    (hpos : 0 < deltaEr) (htot : 0 ≤ errs.getLastD 0) :
    calculateOptimalLamVals sq gd "sem" none none "inter" true =
        .error "Either delta_er or n_lam_vals must be provided." ∧
      (∀ k : ℕ, calculateOptimalLamVals sq gd "sem" (some deltaEr) (some k) "inter" true =
        .error "Only one of delta_er or n_lam_vals can be provided.") ∧
      calculateOptimalLamVals sq gd "sem" (some deltaEr) none "inter" true =
        calculateOptimalLamVals sq gd "sem" none
          (some (⌊errs.getLastD 0 / deltaEr⌋ + 1).toNat) "inter" true := by
  refine ⟨by simp [calculateOptimalLamVals], fun k => by simp [calculateOptimalLamVals], ?_⟩
  have hq : 0 ≤ errs.getLastD 0 / deltaEr := div_nonneg htot (le_of_lt hpos)
  have hq' : 0 ≤ errs.getLast?.getD 0 / deltaEr := by
    rwa [← List.getLastD_eq_getLast?]
  simp [calculateOptimalLamVals, herrs, Bind.bind, Except.bind]
  rw [pyInt_of_nonneg hq']

/-- Witness for C4 at a concrete two-window `GradientData` whose integrated
error curve is `[0, 1]` and `delta_er = 1`. -/
theorem calculate_optimal_lam_vals_arg_check_witness :
    calculateOptimalLamVals id ⟨[0, 1], [1, 1], [], [1, 1], [], [1, 1]⟩ "sem"
        none none "inter" true =
        .error "Either delta_er or n_lam_vals must be provided." ∧
      (∀ k : ℕ, calculateOptimalLamVals id ⟨[0, 1], [1, 1], [], [1, 1], [], [1, 1]⟩ "sem"
        (some 1) (some k) "inter" true =
        .error "Only one of delta_er or n_lam_vals can be provided.") ∧
      calculateOptimalLamVals id ⟨[0, 1], [1, 1], [], [1, 1], [], [1, 1]⟩ "sem"
        (some 1) none "inter" true =
        calculateOptimalLamVals id ⟨[0, 1], [1, 1], [], [1, 1], [], [1, 1]⟩ "sem" none
          (some (⌊([(0 : ℚ), 1].getLastD 0) / 1⌋ + 1).toNat) "inter" true :=
  calculate_optimal_lam_vals_arg_check id ⟨[0, 1], [1, 1], [], [1, 1], [], [1, 1]⟩ 1 [0, 1]
    (by with_unfolding_all decide) (by norm_num) (by with_unfolding_all decide)

/-- C8: for a stage with at least two (strictly increasing) lambda values,
the trapezoidal weights sum to `lam_vals[-1] - lam_vals[0]`. -/
theorem lam_val_weights_sum (lamVals : List ℚ) (h2 : 2 ≤ lamVals.length)
    (hsorted : lamVals.Chain' (· < ·)) :
    (lamValWeights lamVals).sum =
      lamVals.getD (lamVals.length - 1) 0 - lamVals.getD 0 0 := by
  obtain ⟨m, hm⟩ : ∃ m, lamVals.length = m + 2 := ⟨lamVals.length - 2, by omega⟩
  rw [lamValWeights, range_map_sum, hm]
  rw [Finset.sum_range_succ', Finset.sum_range_succ]
  have key : ∀ i ∈ Finset.range m,
      (if i + 1 = 0 then (lamVals.getD (i + 1 + 1) 0 - lamVals.getD (i + 1) 0) / 2
       else if i + 1 = m + 2 - 1 then
         (lamVals.getD (i + 1) 0 - lamVals.getD (i + 1 - 1) 0) / 2
       else (lamVals.getD (i + 1 + 1) 0 - lamVals.getD (i + 1 - 1) 0) / 2)
      = (lamVals.getD (i + 2) 0 - lamVals.getD i 0) / 2 := by
    intro i hi
    have him : i < m := Finset.mem_range.mp hi
    rw [if_neg (by omega), if_neg (by omega)]
    norm_num
  rw [Finset.sum_congr rfl key]
  rw [← Finset.sum_div, two_step_telescope (fun n => lamVals.getD n 0) m]
  rw [if_pos rfl, if_neg (by omega : ¬ m + 1 = 0),
    if_pos (by omega : m + 1 = m + 2 - 1)]
  have hsub : m + 1 - 1 = m := by omega
  have hsub2 : m + 2 - 1 = m + 1 := by omega
  rw [hsub, hsub2]
  norm_num
  ring

/-- Witness for C8 on the strictly increasing `[0, 1/2, 1]`. -/
theorem lam_val_weights_sum_witness :
    (lamValWeights [0, 1/2, 1]).sum =
      [0, (1 : ℚ)/2, 1].getD ([0, (1 : ℚ)/2, 1].length - 1) 0 -
        [0, (1 : ℚ)/2, 1].getD 0 0 :=
  lam_val_weights_sum [0, 1/2, 1] (by norm_num) (by norm_num [List.chain'_cons])

/-- C10: truncating to the equilibrated region keeps exactly the leading
`#` header lines and the data rows from index
`floor(equil_time / (timestep * nrg_freq)) - 1` on; all earlier data rows
are removed. -/
theorem write_equilibrated_data_truncates (header data : List String)
    (equilTime timestep nrgFreq : ℚ)
    (hh : ∀ l ∈ header, l.startsWith "#" = true)
    (hd : ∀ l, data.head? = some l → l.startsWith "#" = false)
    (hfloor : 1 ≤ ⌊equilTime / (timestep * nrgFreq)⌋) :
    writeEquilibratedData (header ++ data) (equilIndexOf equilTime timestep nrgFreq) =
      header ++ data.drop (⌊equilTime / (timestep * nrgFreq)⌋ - 1).toNat := by
  have hr0 : 0 ≤ equilTime / (timestep * nrgFreq) := by
    have h1 := Int.le_floor.mp hfloor
    push_cast at h1
    linarith
  have hidx : equilIndexOf equilTime timestep nrgFreq =
      ⌊equilTime / (timestep * nrgFreq)⌋ - 1 := by
    unfold equilIndexOf
    rw [pyInt_of_nonneg hr0]
  rw [hidx]
  simp only [writeEquilibratedData]
  rw [takeWhile_append_of_all _ header data hh hd]
  have hnat : (⌊equilTime / (timestep * nrgFreq)⌋ - 1 + (header.length : ℤ)).toNat =
      header.length + (⌊equilTime / (timestep * nrgFreq)⌋ - 1).toNat := by omega
  rw [List.take_left, hnat, List.drop_append]

/-- Witness for C10: one header line, three data rows, equilibration time
2 ns with a 1 ns per-sample interval, so the first data row is dropped. -/
theorem write_equilibrated_data_truncates_witness :
    writeEquilibratedData (["#header"] ++ ["a", "b", "c"]) (equilIndexOf 2 1 1) =
      ["#header"] ++ ["a", "b", "c"].drop (⌊(2 : ℚ) / (1 * 1)⌋ - 1).toNat :=
  write_equilibrated_data_truncates ["#header"] ["a", "b", "c"] 2 1 1
    (by intro l hl
        cases hl with
        | head => with_unfolding_all decide
        | tail _ h => cases h)
    (by intro l hl
        cases hl
        with_unfolding_all decide)
    (by norm_num)

/-- Every pre-mirroring overlap entry is positive when every walk step is. -/
theorem unnormUpper_pos (sq : ℚ → ℚ) (lamVals varsIntra : List ℚ) (b : ℚ)
    (base d n : ℕ) (hbd : base + d < n)
    (hstep : ∀ t, 1 ≤ t → t < n → 0 < overlapStep sq lamVals varsIntra b t) :
    0 < unnormUpper sq lamVals varsIntra b base d := by
  unfold unnormUpper
  apply List.prod_pos
  intro x hx
  obtain ⟨s, hs, rfl⟩ := List.mem_map.mp hx
  have hsr : s < d := List.mem_range.mp hs
  exact inv_pos.mpr (hstep (base + s + 1) (by omega) (by omega))

/-- The mirrored overlap matrix is entrywise positive on the `n × n` block
when every walk step is positive. -/
theorem unnormOverlapMat_pos (sq : ℚ → ℚ) (gd : GradientData) (T : ℚ) {i j : ℕ}
    (hi : i < gd.lamVals.length) (hj : j < gd.lamVals.length)
    (hstep : ∀ t, 1 ≤ t → t < gd.lamVals.length →
      0 < overlapStep sq gd.lamVals gd.varsIntra (overlapBeta T) t) :
    0 < unnormOverlapMat sq gd T i j := by
  unfold unnormOverlapMat
  by_cases h : i ≤ j
  · rw [if_pos h]
    exact unnormUpper_pos sq gd.lamVals gd.varsIntra (overlapBeta T) i (j - i)
      gd.lamVals.length (by omega) hstep
  · rw [if_neg h]
    exact unnormUpper_pos sq gd.lamVals gd.varsIntra (overlapBeta T) j (i - j)
      gd.lamVals.length (by omega) hstep

/-- C6 (counterexample): at three windows `λ = [0, 1, 2]` with positive
intra-run variances `[4, 4, 14]` and the default temperature 298 K, the
matrix returned by `get_predicted_overlap_mat` is not symmetric: the
row-wise normalisation divides rows by different sums. The square-root
model agrees with the exact square root at both points where it is
evaluated (`av_var = 4` and `av_var = 9`). -/
theorem predicted_overlap_mat_not_symmetric :
    (fun q : ℚ => if q = 4 then 2 else if q = 9 then 3 else 0) 4 = 2 ∧
    (fun q : ℚ => if q = 4 then 2 else if q = 9 then 3 else 0) 9 = 3 ∧
    predictedOverlapMat (fun q : ℚ => if q = 4 then 2 else if q = 9 then 3 else 0)
        ⟨[0, 1, 2], [], [], [], [4, 4, 14], []⟩ 298 0 1 ≠
      predictedOverlapMat (fun q : ℚ => if q = 4 then 2 else if q = 9 then 3 else 0)
        ⟨[0, 1, 2], [], [], [], [4, 4, 14], []⟩ 298 1 0 := by
  refine ⟨by norm_num, by norm_num, by with_unfolding_all decide⟩

/-- C6 (amended): when every step of the overlap walk is positive (true for
at least two windows, strictly increasing lambdas, positive intra-run
variances and positive temperature), every row of the matrix returned by
`get_predicted_overlap_mat` sums to exactly 1, and the matrix is symmetric
*before* row normalisation (the mirrored matrix); the returned, row-wise
normalised matrix itself need not be symmetric. -/
theorem predicted_overlap_mat_row_sums (sq : ℚ → ℚ) (gd : GradientData) (T : ℚ)
    (hn : 2 ≤ gd.lamVals.length)
    (hstep : ∀ t, 1 ≤ t → t < gd.lamVals.length →
      0 < overlapStep sq gd.lamVals gd.varsIntra (overlapBeta T) t) :
    (∀ i, i < gd.lamVals.length →
      ((List.range gd.lamVals.length).map (predictedOverlapMat sq gd T i)).sum = 1) ∧
    (∀ i j, unnormOverlapMat sq gd T i j = unnormOverlapMat sq gd T j i) := by
  constructor
  · intro i hi
    have hS : 0 < overlapRowSum sq gd T i := by
      unfold overlapRowSum
      apply List.sum_pos
      · intro x hx
        obtain ⟨j, hj, rfl⟩ := List.mem_map.mp hx
        exact unnormOverlapMat_pos sq gd T hi (List.mem_range.mp hj) hstep
      · simp only [ne_eq, List.map_eq_nil_iff, List.range_eq_nil]
        omega
    have hmap : (List.range gd.lamVals.length).map (predictedOverlapMat sq gd T i) =
        (List.range gd.lamVals.length).map
          (fun j => unnormOverlapMat sq gd T i j / overlapRowSum sq gd T i) := rfl
    rw [hmap, map_div_sum]
    exact div_self (ne_of_gt hS)
  · intro i j
    unfold unnormOverlapMat
    by_cases h : i ≤ j
    · by_cases h' : j ≤ i
      · have : i = j := le_antisymm h h'
        subst this
        rfl
      · rw [if_pos h, if_neg h']
    · have h' : j ≤ i := le_of_not_le h
      rw [if_neg h, if_pos h']

/-- Witness for the amended C6 at the counterexample's data. -/
theorem predicted_overlap_mat_row_sums_witness :
    (∀ i, i < (GradientData.mk [0, 1, 2] [] [] [] [4, 4, 14] []).lamVals.length →
      ((List.range (GradientData.mk [0, 1, 2] [] [] [] [4, 4, 14] []).lamVals.length).map
        (predictedOverlapMat (fun q : ℚ => if q = 4 then 2 else if q = 9 then 3 else 0)
          (GradientData.mk [0, 1, 2] [] [] [] [4, 4, 14] []) 298 i)).sum = 1) ∧
    (∀ i j, unnormOverlapMat (fun q : ℚ => if q = 4 then 2 else if q = 9 then 3 else 0)
        (GradientData.mk [0, 1, 2] [] [] [] [4, 4, 14] []) 298 i j =
      unnormOverlapMat (fun q : ℚ => if q = 4 then 2 else if q = 9 then 3 else 0)
        (GradientData.mk [0, 1, 2] [] [] [] [4, 4, 14] []) 298 j i) :=
  predicted_overlap_mat_row_sums _ _ 298 (by norm_num)
    (by intro t h1 h2
        norm_num at h2
        interval_cases t <;> with_unfolding_all decide)

/-! ### Lemmas about `interp`, `linspace` and `trapz` (used for C5) -/

theorem trapz_nil (xs : List ℚ) : trapz [] xs = 0 := by
  cases xs <;> rfl

theorem trapz_single (y : ℚ) (xs : List ℚ) : trapz [y] xs = 0 := by
  cases xs with
  | nil => rfl
  | cons a t => cases t <;> rfl

theorem takeWhile_len_le (p : ℚ → Bool) : ∀ xp : List ℚ, (xp.takeWhile p).length ≤ xp.length
  | [] => le_refl _
  | a :: t => by
    rw [List.takeWhile_cons]
    by_cases h : p a
    · simpa [h] using takeWhile_len_le p t
    · simp [h]

theorem takeWhile_le_length_mono (xp : List ℚ) {x y : ℚ} (h : x ≤ y) :
    (xp.takeWhile (fun v => v ≤ x)).length ≤ (xp.takeWhile (fun v => v ≤ y)).length := by
  induction xp with
  | nil => simp
  | cons a t ih =>
    by_cases ha : a ≤ x
    · have hay : a ≤ y := le_trans ha h
      simpa [List.takeWhile_cons, ha, hay] using ih
    · simp [List.takeWhile_cons, ha]

theorem lt_getD_takeWhile_length (xp : List ℚ) (x : ℚ)
    (h : (xp.takeWhile (fun v => v ≤ x)).length < xp.length) :
    x < xp.getD (xp.takeWhile (fun v => v ≤ x)).length 0 := by
  induction xp with
  | nil => simp at h
  | cons a t ih =>
    by_cases ha : a ≤ x
    · rw [List.takeWhile_cons, if_pos (decide_eq_true ha)] at h ⊢
      simp only [List.length_cons] at h ⊢
      rw [List.getD_cons_succ]
      exact ih (by omega)
    · rw [List.takeWhile_cons, if_neg (by simp [ha])]
      simpa using not_le.mp ha

theorem getD_le_of_lt_takeWhile_length (xp : List ℚ) (x : ℚ) :
    ∀ {i : ℕ}, i < (xp.takeWhile (fun v => v ≤ x)).length → xp.getD i 0 ≤ x := by
  induction xp with
  | nil => intro i h; simp at h
  | cons a t ih =>
    intro i h
    by_cases ha : a ≤ x
    · cases i with
      | zero => simpa using ha
      | succ i' =>
        rw [List.takeWhile_cons, if_pos (decide_eq_true ha)] at h
        simp only [List.length_cons] at h
        rw [List.getD_cons_succ]
        exact ih (by omega)
    · rw [List.takeWhile_cons, if_neg (by simp [ha])] at h
      simp at h

theorem interp_eq_of_takeWhile_zero (x : ℚ) (xp fp : List ℚ)
    (h : (xp.takeWhile (fun v => v ≤ x)).length = 0) : interp x xp fp = fp.headD 0 := by
  simp only [interp]
  rw [if_pos h]

theorem interp_eq_of_takeWhile_full (x : ℚ) (xp fp : List ℚ)
    (h0 : (xp.takeWhile (fun v => v ≤ x)).length ≠ 0)
    (h : (xp.takeWhile (fun v => v ≤ x)).length = xp.length) :
    interp x xp fp = fp.getLastD 0 := by
  simp only [interp]
  rw [if_neg h0, if_pos h]

theorem interp_eq_segment (x : ℚ) (xp fp : List ℚ)
    (h0 : (xp.takeWhile (fun v => v ≤ x)).length ≠ 0)
    (h1 : (xp.takeWhile (fun v => v ≤ x)).length ≠ xp.length) :
    interp x xp fp =
      fp.getD ((xp.takeWhile (fun v => v ≤ x)).length - 1) 0 +
        (fp.getD ((xp.takeWhile (fun v => v ≤ x)).length - 1 + 1) 0 -
          fp.getD ((xp.takeWhile (fun v => v ≤ x)).length - 1) 0) *
          (x - xp.getD ((xp.takeWhile (fun v => v ≤ x)).length - 1) 0) /
          (xp.getD ((xp.takeWhile (fun v => v ≤ x)).length - 1 + 1) 0 -
            xp.getD ((xp.takeWhile (fun v => v ≤ x)).length - 1) 0) := by
  simp only [interp]
  rw [if_neg h0, if_neg h1]

theorem lin_val_bounds (a b xa xb x : ℚ) (hab : a ≤ b) (hxa : xa ≤ x) (hxb : x < xb) :
    a ≤ a + (b - a) * (x - xa) / (xb - xa) ∧ a + (b - a) * (x - xa) / (xb - xa) ≤ b := by
  have hd : (0 : ℚ) < xb - xa := by linarith
  constructor
  · have h1 : 0 ≤ (b - a) * (x - xa) / (xb - xa) :=
      div_nonneg (mul_nonneg (by linarith) (by linarith)) (le_of_lt hd)
    linarith
  · have h1 : (b - a) * (x - xa) ≤ (b - a) * (xb - xa) :=
      mul_le_mul_of_nonneg_left (by linarith) (by linarith)
    have h2 := div_le_div_of_nonneg_right h1 hd.le
    rw [mul_div_assoc (b - a) (xb - xa), div_self (ne_of_gt hd), mul_one] at h2
    linarith

theorem lin_val_mono (a b xa xb x y : ℚ) (hab : a ≤ b) (hd : xa < xb) (hxy : x ≤ y) :
    a + (b - a) * (x - xa) / (xb - xa) ≤ a + (b - a) * (y - xa) / (xb - xa) := by
  have hd' : (0 : ℚ) < xb - xa := by linarith
  have h1 : (b - a) * (x - xa) ≤ (b - a) * (y - xa) :=
    mul_le_mul_of_nonneg_left (by linarith) (by linarith)
  have h2 := div_le_div_of_nonneg_right h1 hd'.le
  linarith

theorem interp_bounds_segment (x : ℚ) (xp fp : List ℚ) (hfp : fp.Chain' (· ≤ ·))
    (hlen : xp.length = fp.length)
    (h0 : (xp.takeWhile (fun v => v ≤ x)).length ≠ 0)
    (h1 : (xp.takeWhile (fun v => v ≤ x)).length < xp.length) :
    fp.getD ((xp.takeWhile (fun v => v ≤ x)).length - 1) 0 ≤ interp x xp fp ∧
      interp x xp fp ≤ fp.getD (xp.takeWhile (fun v => v ≤ x)).length 0 := by
  have hxj : xp.getD ((xp.takeWhile (fun v => v ≤ x)).length - 1) 0 ≤ x :=
    getD_le_of_lt_takeWhile_length xp x (by omega)
  have hxJ : x < xp.getD (xp.takeWhile (fun v => v ≤ x)).length 0 :=
    lt_getD_takeWhile_length xp x h1
  rw [interp_eq_segment x xp fp h0 (by omega)]
  have hJ1 : (xp.takeWhile (fun v => v ≤ x)).length - 1 + 1 =
      (xp.takeWhile (fun v => v ≤ x)).length := by omega
  rw [hJ1]
  have hfj : fp.getD ((xp.takeWhile (fun v => v ≤ x)).length - 1) 0 ≤
      fp.getD (xp.takeWhile (fun v => v ≤ x)).length 0 :=
    chain'_le_getD_mono hfp (by omega) (by omega)
  exact lin_val_bounds _ _ _ _ x hfj hxj hxJ

theorem interp_global_bounds (x : ℚ) (xp fp : List ℚ) (hfp : fp.Chain' (· ≤ ·))
    (hlen : xp.length = fp.length) (hne : xp ≠ []) :
    fp.getD 0 0 ≤ interp x xp fp ∧ interp x xp fp ≤ fp.getD (fp.length - 1) 0 := by
  have hxplen : 0 < xp.length := List.length_pos.mpr hne
  by_cases h0 : (xp.takeWhile (fun v => v ≤ x)).length = 0
  · rw [interp_eq_of_takeWhile_zero x xp fp h0, headD_eq_getD]
    exact ⟨le_refl _, chain'_le_getD_mono hfp (by omega) (by omega)⟩
  · by_cases hfull : (xp.takeWhile (fun v => v ≤ x)).length = xp.length
    · rw [interp_eq_of_takeWhile_full x xp fp h0 hfull, getLastD_eq_getD]
      exact ⟨chain'_le_getD_mono hfp (by omega) (by omega), le_refl _⟩
    · have hlt : (xp.takeWhile (fun v => v ≤ x)).length < xp.length :=
        lt_of_le_of_ne (takeWhile_len_le _ xp) hfull
      have hb := interp_bounds_segment x xp fp hfp hlen h0 hlt
      exact ⟨le_trans (chain'_le_getD_mono hfp (by omega) (by omega)) hb.1,
             le_trans hb.2 (chain'_le_getD_mono hfp (by omega) (by omega))⟩

theorem interp_mono (xp fp : List ℚ) (hfp : fp.Chain' (· ≤ ·))
    (hlen : xp.length = fp.length) {x y : ℚ} (hxy : x ≤ y) :
    interp x xp fp ≤ interp y xp fp := by
  by_cases hnil : xp = []
  · subst hnil
    rw [interp_eq_of_takeWhile_zero x [] fp (by simp),
      interp_eq_of_takeWhile_zero y [] fp (by simp)]
  · have hxplen : 0 < xp.length := List.length_pos.mpr hnil
    have hJmono := takeWhile_le_length_mono xp hxy
    have hJxle := takeWhile_len_le (fun v => decide (v ≤ x)) xp
    have hJyle := takeWhile_len_le (fun v => decide (v ≤ y)) xp
    by_cases hx0 : (xp.takeWhile (fun v => v ≤ x)).length = 0
    · rw [interp_eq_of_takeWhile_zero x xp fp hx0, headD_eq_getD]
      exact (interp_global_bounds y xp fp hfp hlen hnil).1
    · by_cases hxfull : (xp.takeWhile (fun v => v ≤ x)).length = xp.length
      · have hyfull : (xp.takeWhile (fun v => v ≤ y)).length = xp.length :=
          le_antisymm hJyle (hxfull ▸ hJmono)
        rw [interp_eq_of_takeWhile_full x xp fp hx0 hxfull,
          interp_eq_of_takeWhile_full y xp fp (by omega) hyfull]
      · have hxlt : (xp.takeWhile (fun v => v ≤ x)).length < xp.length :=
          lt_of_le_of_ne hJxle hxfull
        have hbx := interp_bounds_segment x xp fp hfp hlen hx0 hxlt
        by_cases hyfull : (xp.takeWhile (fun v => v ≤ y)).length = xp.length
        · rw [interp_eq_of_takeWhile_full y xp fp (by omega) hyfull, getLastD_eq_getD]
          exact le_trans hbx.2 (chain'_le_getD_mono hfp (by omega) (by omega))
        · have hylt : (xp.takeWhile (fun v => v ≤ y)).length < xp.length :=
            lt_of_le_of_ne hJyle hyfull
          have hby := interp_bounds_segment y xp fp hfp hlen (by omega) hylt
          by_cases heq : (xp.takeWhile (fun v => v ≤ x)).length =
              (xp.takeWhile (fun v => v ≤ y)).length
          · rw [interp_eq_segment x xp fp hx0 (by omega),
              interp_eq_segment y xp fp (by omega) (by omega), ← heq]
            have hJ1 : (xp.takeWhile (fun v => v ≤ x)).length - 1 + 1 =
                (xp.takeWhile (fun v => v ≤ x)).length := by omega
            rw [hJ1]
            have hxj : xp.getD ((xp.takeWhile (fun v => v ≤ x)).length - 1) 0 ≤ x :=
              getD_le_of_lt_takeWhile_length xp x (by omega)
            have hxJ : x < xp.getD (xp.takeWhile (fun v => v ≤ x)).length 0 :=
              lt_getD_takeWhile_length xp x hxlt
            exact lin_val_mono _ _ _ _ x y
              (chain'_le_getD_mono hfp (by omega) (by omega))
              (lt_of_le_of_lt hxj hxJ) hxy
          · have hlt : (xp.takeWhile (fun v => v ≤ x)).length <
                (xp.takeWhile (fun v => v ≤ y)).length := lt_of_le_of_ne hJmono heq
            calc interp x xp fp
                ≤ fp.getD (xp.takeWhile (fun v => v ≤ x)).length 0 := hbx.2
              _ ≤ fp.getD ((xp.takeWhile (fun v => v ≤ y)).length - 1) 0 :=
                  chain'_le_getD_mono hfp (by omega) (by omega)
              _ ≤ interp y xp fp := hby.1

theorem interp_head (xp fp : List ℚ) (hn : 2 ≤ xp.length)
    (h01 : xp.getD 0 0 < xp.getD 1 0) :
    interp (xp.getD 0 0) xp fp = fp.getD 0 0 := by
  match xp, hn with
  | x0 :: x1 :: rest, _ =>
    have h01' : x0 < x1 := by simpa using h01
    have hJ : ((x0 :: x1 :: rest).takeWhile (fun v => v ≤ x0)).length = 1 := by
      rw [List.takeWhile_cons, List.takeWhile_cons]
      simp [le_refl, not_le.mpr h01']
    have hx : (x0 :: x1 :: rest).getD 0 0 = x0 := rfl
    rw [hx, interp_eq_segment x0 (x0 :: x1 :: rest) fp (by omega)
      (by rw [hJ, List.length_cons, List.length_cons]; omega), hJ]
    simp

theorem interp_last (xp fp : List ℚ) (hxp : xp.Chain' (· ≤ ·)) (hne : xp ≠ [])
    {x : ℚ} (hx : xp.getD (xp.length - 1) 0 ≤ x) :
    interp x xp fp = fp.getLastD 0 := by
  have hxplen : 0 < xp.length := List.length_pos.mpr hne
  have hfull : xp.takeWhile (fun v => v ≤ x) = xp := by
    rw [List.takeWhile_eq_self_iff]
    intro v hv
    obtain ⟨i, rfl⟩ := List.mem_iff_get.mp hv
    have hi : (i : ℕ) < xp.length := i.isLt
    have : xp.getD i 0 ≤ x :=
      le_trans (chain'_le_getD_mono hxp (by omega) (by omega)) hx
    rw [List.getD_eq_getElem _ _ hi] at this
    simpa using this
  have hflen : (xp.takeWhile (fun v => v ≤ x)).length = xp.length := by rw [hfull]
  exact interp_eq_of_takeWhile_full x xp fp (by omega) hflen

/-! ### Lemmas about `linspace` -/

theorem linspace_length (a b : ℚ) (k : ℕ) : (linspace a b k).length = k := by
  unfold linspace
  split_ifs with h1 h2
  · simp [h1]
  · simp [h2]
  · rw [List.length_map, List.length_range]

theorem linspace_getD (a b : ℚ) {k i : ℕ} (hk : 2 ≤ k) (hi : i < k) :
    (linspace a b k).getD i 0 = a + (b - a) * i / ((k : ℚ) - 1) := by
  unfold linspace
  rw [if_neg (by omega), if_neg (by omega)]
  exact range_map_getD (fun i : ℕ => a + (b - a) * (i : ℚ) / ((k : ℚ) - 1)) hi

theorem linspace_head (a b : ℚ) {k : ℕ} (hk : 1 ≤ k) : (linspace a b k).getD 0 0 = a := by
  rcases Nat.lt_or_ge k 2 with h | h
  · have hk1 : k = 1 := by omega
    subst hk1
    rfl
  · rw [linspace_getD a b h (by omega)]
    simp

theorem linspace_last (a b : ℚ) {k : ℕ} (hk : 2 ≤ k) :
    (linspace a b k).getD (k - 1) 0 = b := by
  rw [linspace_getD a b hk (by omega)]
  have hc : ((k - 1 : ℕ) : ℚ) = (k : ℚ) - 1 := by
    have : (1 : ℕ) ≤ k := by omega
    push_cast [this]
    ring
  have hne : ((k : ℚ) - 1) ≠ 0 := by
    have : (2 : ℚ) ≤ (k : ℚ) := by exact_mod_cast hk
    linarith
  rw [hc, mul_div_assoc, div_self hne, mul_one]
  ring

theorem linspace_chain (a b : ℚ) (k : ℕ) (hab : a ≤ b) :
    (linspace a b k).Chain' (· ≤ ·) := by
  unfold linspace
  split_ifs with h1 h2
  · simp
  · simp
  · rw [List.chain'_map]
    have hk : 2 ≤ k := by omega
    obtain ⟨m, rfl⟩ : ∃ m, k = m + 1 := ⟨k - 1, by omega⟩
    rw [List.chain'_range_succ]
    intro i hi
    have hd : (0 : ℚ) < (m + 1 : ℕ) - 1 := by
      have : (2 : ℚ) ≤ ((m + 1 : ℕ) : ℚ) := by exact_mod_cast hk
      linarith
    apply add_le_add_left
    apply div_le_div_of_nonneg_right _ hd.le
    apply mul_le_mul_of_nonneg_left _ (by linarith)
    exact_mod_cast Nat.le_succ i

theorem map_getD (f : ℚ → ℚ) (l : List ℚ) {i : ℕ} (h : i < l.length) :
    (l.map f).getD i 0 = f (l.getD i 0) := by
  rw [List.getD_eq_getElem _ _ (by simpa using h), List.getD_eq_getElem _ _ h,
    List.getElem_map]

theorem chain'_map_of_mono {f : ℚ → ℚ} (hf : ∀ a b : ℚ, a ≤ b → f a ≤ f b)
    {l : List ℚ} (hl : l.Chain' (· ≤ ·)) : (l.map f).Chain' (· ≤ ·) := by
  rw [List.chain'_map]
  exact List.Chain'.imp (fun a b hab => hf a b hab) hl

theorem trapz_take_one (ys xs : List ℚ) : trapz (ys.take 1) xs = 0 := by
  cases ys with
  | nil => exact trapz_nil xs
  | cons y t => exact trapz_single y xs

/-- `get_sems` never fails for the valid origin `"inter"`. -/
theorem getSems_inter_ok (sq : ℚ → ℚ) (gd : GradientData) (smoothen : Bool) :
    ∃ ss, getSems sq gd "inter" smoothen = .ok ss := by
  unfold getSems
  rw [if_neg (by simp)]
  cases smoothen
  · exact ⟨_, rfl⟩
  · exact ⟨_, rfl⟩

/-- C5 (counterexample): a legitimate two-window `GradientData` with
strictly increasing lambdas `[0, 1]` but all-zero SEM series (achievable
with constant gradient samples) makes the integrated error curve `[0, 0]`;
`calculate_optimal_lam_vals(n_lam_vals=2)` then returns `[1, 1]`, whose
first element is not the first input lambda value. -/
theorem calculate_optimal_lam_vals_first_value_counterexample :
    ([0, 1] : List ℚ).Chain' (· < ·) ∧
    calculateOptimalLamVals id ⟨[0, 1], [0, 0], [], [0, 0], [], [1, 1]⟩ "sem"
        none (some 2) "inter" true = .ok [1, 1] ∧
    (1 : ℚ) ≠ npRound3 ([0, (1 : ℚ)].getD 0 0) := by
  refine ⟨by norm_num [List.chain'_cons], by with_unfolding_all decide,
    by with_unfolding_all decide⟩

/-- C5 (amended): for every `GradientData` with at least two strictly
increasing lambda values whose integrated (smoothed inter-run) error curve
is strictly increasing, and every `k ≥ 2`,
`calculate_optimal_lam_vals(n_lam_vals=k)` succeeds with exactly `k`
monotonically non-decreasing values whose first element is the first input
lambda value and whose last is the last input lambda value, each rounded to
3 decimal places. -/
theorem calculate_optimal_lam_vals_shape (sq : ℚ → ℚ) (gd : GradientData) (k : ℕ)
    (errs : List ℚ)
    (herrs : getIntegratedError sq gd "sem" "inter" true = .ok errs)
    (hn : 2 ≤ gd.lamVals.length)
    (hlam : gd.lamVals.Chain' (· < ·))
    (hinc : errs.Chain' (· < ·))
    (hk : 2 ≤ k) :
    ∃ vs, calculateOptimalLamVals sq gd "sem" none (some k) "inter" true = .ok vs ∧
      vs.length = k ∧
      vs.Chain' (· ≤ ·) ∧
      vs.getD 0 0 = npRound3 (gd.lamVals.getD 0 0) ∧
      vs.getD (k - 1) 0 = npRound3 (gd.lamVals.getD (gd.lamVals.length - 1) 0) := by
  obtain ⟨ss, hss⟩ := getSems_inter_ok sq gd true
  have herrseq : errs = (List.range gd.lamVals.length).map
      (fun i => trapz (ss.take (i + 1)) (gd.lamVals.take (i + 1))) := by
    have h := herrs
    simp only [getIntegratedError] at h
    rw [if_pos trivial, hss] at h
    simp only [Bind.bind, Except.bind] at h
    exact (Except.ok.inj h).symm
  have herrlen : errs.length = gd.lamVals.length := by
    rw [herrseq, List.length_map, List.length_range]
  have herr0 : errs.getD 0 0 = 0 := by
    rw [herrseq, range_map_getD _ (by omega)]
    exact trapz_take_one ss _
  have hT : 0 < errs.getLastD 0 := by
    rw [getLastD_eq_getD]
    have h01 := chain'_lt_getD_strict hinc
      (show (0 : ℕ) < errs.length - 1 by omega) (by omega)
    rw [herr0] at h01
    exact h01
  have hinc' : errs.Chain' (· ≤ ·) := List.Chain'.imp (fun a b h => le_of_lt h) hinc
  have hlam' : gd.lamVals.Chain' (· ≤ ·) := List.Chain'.imp (fun a b h => le_of_lt h) hlam
  have hne : errs ≠ [] := by
    intro h
    rw [h] at herrlen
    simp at herrlen
    omega
  refine ⟨(linspace 0 (errs.getLastD 0) k).map
      (fun r => npRound3 (interp r errs gd.lamVals)), ?_, ?_, ?_, ?_, ?_⟩
  · simp only [calculateOptimalLamVals]
    rw [if_neg (by simp), if_neg (by simp), herrs]
    rfl
  · rw [List.length_map, linspace_length]
  · exact chain'_map_of_mono
      (fun a b hab => npRound3_mono (interp_mono errs gd.lamVals hlam' herrlen hab))
      (linspace_chain 0 (errs.getLastD 0) k (le_of_lt hT))
  · rw [map_getD _ _ (by rw [linspace_length]; omega),
      linspace_head 0 (errs.getLastD 0) (by omega)]
    congr 1
    have h01 : errs.getD 0 0 < errs.getD 1 0 :=
      chain'_lt_getD_strict hinc (by omega) (by omega)
    have hhead := interp_head errs gd.lamVals (by omega) h01
    rw [herr0] at hhead
    exact hhead
  · rw [map_getD _ _ (by rw [linspace_length]; omega),
      linspace_last 0 (errs.getLastD 0) hk]
    congr 1
    have hlast := interp_last errs gd.lamVals hinc' hne
      (le_of_eq (getLastD_eq_getD errs 0).symm)
    rw [hlast, getLastD_eq_getD]

/-- Witness for the amended C5 at a two-window `GradientData` with
standardised SEMs `[1, 1]` and integrated error curve `[0, 1]`. -/
theorem calculate_optimal_lam_vals_shape_witness :
    ∃ vs, calculateOptimalLamVals id ⟨[0, 1], [1, 1], [], [1, 1], [], [1, 1]⟩ "sem"
        none (some 2) "inter" true = .ok vs ∧
      vs.length = 2 ∧
      vs.Chain' (· ≤ ·) ∧
      vs.getD 0 0 = npRound3 (([0, (1 : ℚ)] : List ℚ).getD 0 0) ∧
      vs.getD (2 - 1) 0 =
        npRound3 (([0, (1 : ℚ)] : List ℚ).getD (([0, (1 : ℚ)] : List ℚ).length - 1) 0) :=
  calculate_optimal_lam_vals_shape id ⟨[0, 1], [1, 1], [], [1, 1], [], [1, 1]⟩ 2 [0, 1]
    (by with_unfolding_all decide) (by norm_num)
    (by norm_num [List.chain'_cons]) (by norm_num [List.chain'_cons]) (by norm_num)

end EnsEquil
